import Mathlib

/-!
Verification of the LSM segment-group component (`lsmkv.SegmentGroup`,
`segmentgroup.go`) against its natural-language specification.

The embedding models the group's ordered segment sequence as a Lean list,
oldest first (index 0) to newest last, exactly as the Go slice
`sg.segments`.  Each segment is abstracted by the responses its `get`
method produces: for a given key it returns a value, the `lsmkv.NotFound`
sentinel, the `lsmkv.Deleted` sentinel (tombstone), or some other
(untyped) error, which the group treats as fatal (it panics).
-/

set_option autoImplicit false

namespace LsmKv

/-- Outcome of `segment.get(key)` for one segment: the four cases the group
distinguishes in `getWithUpperSegmentBoundary`. -/
inductive SegGetResult (V : Type) where
  | found (v : V)
  | notFound
  | deleted
  | otherError
  deriving DecidableEq, Repr

/-- `true` for every response other than `NotFound`; these are the responses
that stop the newest-to-oldest walk. -/
def isMeaningful {V : Type} : SegGetResult V → Bool
  | .notFound => false
  | _ => true

/-- Result of the group-level `get` path: `ok (some v)` models `(v, nil)`,
`ok none` models `(nil, nil)` (absent), and `fatal` models the `panic` on an
unsupported segment error. -/
inductive GetOutcome (V : Type) where
  | ok (v : Option V)
  | fatal
  deriving DecidableEq, Repr

/-- A segment as seen by the group's replace-strategy read path: its `get`
behaviour per key, plus the index captured by the `existsOnLowerSegmentsFn`
closure it was constructed with (`makeExistsOnLower(nextSegmentIndex)`). -/
structure GSegment (K V : Type) where
  getFn : K → SegGetResult V
  existsOnLowerIdx : Nat

/-- The ordered segment sequence of a group (`sg.segments`), oldest first. -/
abbrev SegmentGroup (K V : Type) := List (GSegment K V)

/-- The loop body of `getWithUpperSegmentBoundary`, applied to the segment
responses listed newest first: a value stops the walk and is returned;
`NotFound` continues to the next older segment; `Deleted` returns
`(nil, nil)`; any other error panics. -/
def walkNewestFirst {V : Type} : List (SegGetResult V) → GetOutcome V
  | [] => .ok none
  | r :: rest =>
    match r with
    | .found v => .ok (some v)
    | .deleted => .ok none
    | .otherError => .fatal
    | .notFound => walkNewestFirst rest

/-- Responses of the segments at indices `topMostSegment, …, 0`, newest
first — the order in which the Go loop `for i := topMostSegment; i >= 0; i--`
consults them.  `topMostSegment` is an `int` in Go and is `-1` for an empty
group, in which case the list is empty. -/
def respUpTo {K V : Type} (sg : SegmentGroup K V) (key : K) (topMostSegment : Int) :
    List (SegGetResult V) :=
  ((sg.take (topMostSegment + 1).toNat).reverse).map (fun s => s.getFn key)

/-- `SegmentGroup.getWithUpperSegmentBoundary`: walk segments
`topMostSegment … 0`, newest first. -/
def getWithUpperSegmentBoundary {K V : Type} (sg : SegmentGroup K V) (key : K)
    (topMostSegment : Int) : GetOutcome V :=
  walkNewestFirst (respUpTo sg key topMostSegment)

/-- `SegmentGroup.get`: the full walk, with `topMostSegment = len(sg.segments)-1`
(locking is not modelled). -/
def SegmentGroup.get {K V : Type} (sg : SegmentGroup K V) (key : K) : GetOutcome V :=
  getWithUpperSegmentBoundary sg key ((sg.length : Int) - 1)

/-- Specification-side reading of the replace-strategy walk: the decision is
made by the newest meaningful response (the first response other than
`NotFound` in newest-first order), found by `List.find?`. -/
def newestDecision {V : Type} (rs : List (SegGetResult V)) : GetOutcome V :=
  match rs.find? isMeaningful with
  | none => .ok none
  | some (.found v) => .ok (some v)
  | some .deleted => .ok none
  | some .notFound => .ok none
  | some .otherError => .fatal

theorem walkNewestFirst_eq_newestDecision {V : Type} (rs : List (SegGetResult V)) :
    walkNewestFirst rs = newestDecision rs := by
  induction rs with
  | nil => rfl
  | cons r rest ih =>
    cases r with
    | found v => simp [walkNewestFirst, newestDecision, List.find?, isMeaningful]
    | notFound =>
      simpa [walkNewestFirst, newestDecision, List.find?, isMeaningful] using ih
    | deleted => simp [walkNewestFirst, newestDecision, List.find?, isMeaningful]
    | otherError => simp [walkNewestFirst, newestDecision, List.find?, isMeaningful]

/-- If every response in `rs₁` is `NotFound`, the walk skips `rs₁`. -/
theorem walkNewestFirst_append_notFound {V : Type} (rs₁ rs₂ : List (SegGetResult V))
    (h : ∀ r ∈ rs₁, r = SegGetResult.notFound) :
    walkNewestFirst (rs₁ ++ rs₂) = walkNewestFirst rs₂ := by
  induction rs₁ with
  | nil => rfl
  | cons r rest ih =>
    have hr : r = SegGetResult.notFound := h r (by simp)
    subst hr
    simpa [walkNewestFirst] using ih (fun r hr => h r (by simp [hr]))

theorem walkNewestFirst_all_notFound {V : Type} (rs : List (SegGetResult V))
    (h : ∀ r ∈ rs, r = SegGetResult.notFound) :
    walkNewestFirst rs = .ok none := by
  simpa using walkNewestFirst_append_notFound rs [] h

/-- The full walk of `get` is the plain walk over all responses, newest
first (shared helper). -/
theorem get_eq_walk {K V : Type} (sg : SegmentGroup K V) (key : K) :
    sg.get key = walkNewestFirst (sg.reverse.map (fun s => s.getFn key)) := by
  unfold SegmentGroup.get getWithUpperSegmentBoundary respUpTo
  rw [show ((sg.length : Int) - 1 + 1).toNat = sg.length by omega]
  rw [List.take_length]

/-- If every segment responds `NotFound`, `get` returns absent with no
error (shared helper). -/
theorem get_allNotFound {K V : Type} (sg : SegmentGroup K V) (key : K)
    (h : ∀ s ∈ sg, s.getFn key = SegGetResult.notFound) :
    sg.get key = GetOutcome.ok none := by
  rw [get_eq_walk]
  apply walkNewestFirst_all_notFound
  intro r hr
  rcases List.mem_map.mp hr with ⟨s, hs, rfl⟩
  exact h s (List.mem_reverse.mp hs)

/-- `C1`: for the Replace strategy, `get(key)` walks the segment sequence
from newest to oldest; a returned value is yielded and the walk stops,
`NotFound` moves on to the next older segment, `Deleted` yields absent and
stops, and any other segment error is fatal (the implementation panics).
Hence the result is decided by the newest meaningful response: the most
recent non-tombstone write is returned, absent is returned if the most
recent write is a tombstone (and also if no segment holds the key). -/
theorem get_replace_decision {K V : Type} (sg : SegmentGroup K V) (key : K) :
    sg.get key = newestDecision (sg.reverse.map (fun s => s.getFn key)) :=
  (get_eq_walk sg key).trans (walkNewestFirst_eq_newestDecision _)

/-- `C9`: if no segment holds the key — every segment responds `NotFound`,
which in particular is vacuously true for an empty sequence — `get` returns
absent (`nil` value) with no error. -/
theorem get_absent_when_unheld {K V : Type} (sg : SegmentGroup K V) (key : K)
    (h : ∀ s ∈ sg, s.getFn key = SegGetResult.notFound) :
    sg.get key = GetOutcome.ok none :=
  get_allNotFound sg key h

/-- A segment that responds `NotFound` to every key (used by witnesses). -/
def nfSeg : GSegment Nat Nat := ⟨fun _ => SegGetResult.notFound, 0⟩

/-- Witness for `C9` at a concrete input: a two-segment group in which no
segment holds key `3`. -/
theorem get_absent_when_unheld_witness :
    SegmentGroup.get [nfSeg, nfSeg] 3 = GetOutcome.ok none :=
  get_absent_when_unheld [nfSeg, nfSeg] 3
    (by intro s hs; rcases List.mem_cons.mp hs with rfl | hs'; · rfl
        rcases List.mem_cons.mp hs' with rfl | hs''; · rfl
        exact absurd hs'' (List.not_mem_nil s))

/-! ### `getErrDeleted` — the variant that surfaces the sentinels -/

/-- Result of the group-level `getErrDeleted` path: `okVal v` models
`(v, nil)`, `errDeleted` models `(nil, lsmkv.Deleted)`, `errNotFound` models
`(nil, lsmkv.NotFound)` returned after the loop is exhausted, and `fatal`
models the panic on an unsupported segment error. -/
inductive GetEDOutcome (V : Type) where
  | okVal (v : V)
  | errDeleted
  | errNotFound
  | fatal
  deriving DecidableEq, Repr

/-- Loop body of `getWithUpperSegmentBoundaryErrDeleted` over the responses
listed newest first: like the plain walk, except that a tombstone returns
the `Deleted` sentinel and an exhausted loop returns the `NotFound`
sentinel. -/
def walkErrDeleted {V : Type} : List (SegGetResult V) → GetEDOutcome V
  | [] => .errNotFound
  | r :: rest =>
    match r with
    | .found v => .okVal v
    | .deleted => .errDeleted
    | .otherError => .fatal
    | .notFound => walkErrDeleted rest

/-- `SegmentGroup.getWithUpperSegmentBoundaryErrDeleted`. -/
def getWithUpperSegmentBoundaryErrDeleted {K V : Type} (sg : SegmentGroup K V) (key : K)
    (topMostSegment : Int) : GetEDOutcome V :=
  walkErrDeleted (respUpTo sg key topMostSegment)

/-- `SegmentGroup.getErrDeleted` (locking is not modelled). -/
def getErrDeleted {K V : Type} (sg : SegmentGroup K V) (key : K) : GetEDOutcome V :=
  getWithUpperSegmentBoundaryErrDeleted sg key ((sg.length : Int) - 1)

theorem walkErrDeleted_append_notFound {V : Type} (rs₁ rs₂ : List (SegGetResult V))
    (h : ∀ r ∈ rs₁, r = SegGetResult.notFound) :
    walkErrDeleted (rs₁ ++ rs₂) = walkErrDeleted rs₂ := by
  induction rs₁ with
  | nil => rfl
  | cons r rest ih =>
    have hr : r = SegGetResult.notFound := h r (by simp)
    subst hr
    simpa [walkErrDeleted] using ih (fun r hr => h r (by simp [hr]))

theorem getErrDeleted_eq_walk {K V : Type} (sg : SegmentGroup K V) (key : K) :
    getErrDeleted sg key = walkErrDeleted (sg.reverse.map (fun s => s.getFn key)) := by
  unfold getErrDeleted getWithUpperSegmentBoundaryErrDeleted respUpTo
  rw [show ((sg.length : Int) - 1 + 1).toNat = sg.length by omega]
  rw [List.take_length]

/-- `C10`: when no segment in the sequence holds the key or a tombstone for
it (every segment responds `NotFound`), `getErrDeleted` returns the
`NotFound` sentinel error with no value, while plain `get` returns absent
with no error; and when the newest segment holding the key or a tombstone
holds a tombstone, `getErrDeleted` returns the `Deleted` sentinel. -/
theorem getErrDeleted_sentinels {K V : Type} (sg : SegmentGroup K V) (key : K) :
    ((∀ s ∈ sg, s.getFn key = SegGetResult.notFound) →
        getErrDeleted sg key = GetEDOutcome.errNotFound ∧
        sg.get key = GetOutcome.ok none) ∧
    (∀ pre s post, sg = pre ++ s :: post → s.getFn key = SegGetResult.deleted →
        (∀ t ∈ post, t.getFn key = SegGetResult.notFound) →
        getErrDeleted sg key = GetEDOutcome.errDeleted) := by
  constructor
  · intro h
    refine ⟨?_, get_allNotFound sg key h⟩
    rw [getErrDeleted_eq_walk]
    have : sg.reverse.map (fun s => s.getFn key) =
        sg.reverse.map (fun s => s.getFn key) ++ [] := by simp
    rw [this, walkErrDeleted_append_notFound]
    · rfl
    · intro r hr
      rcases List.mem_map.mp hr with ⟨s, hs, rfl⟩
      exact h s (List.mem_reverse.mp hs)
  · intro pre s post hsg hdel hpost
    subst hsg
    rw [getErrDeleted_eq_walk]
    rw [List.reverse_append, List.reverse_cons, List.map_append, List.map_append,
      List.append_assoc]
    rw [walkErrDeleted_append_notFound]
    · simp [walkErrDeleted, hdel]
    · intro r hr
      rcases List.mem_map.mp hr with ⟨t, ht, rfl⟩
      exact hpost t (List.mem_reverse.mp ht)

/-- A segment holding value `7` for every key, constructed at index 0. -/
def cSeg0 : GSegment Nat Nat := ⟨fun _ => SegGetResult.found 7, 0⟩

/-- A segment holding a tombstone for every key, constructed at index 1. -/
def cSeg1 : GSegment Nat Nat := ⟨fun _ => SegGetResult.deleted, 1⟩

/-- Witness for `C10` at concrete inputs: a group in which no segment holds
key `3`, and a group whose newest segment holding key `3` holds a
tombstone. -/
theorem getErrDeleted_sentinels_witness :
    getErrDeleted [nfSeg, nfSeg] 3 = GetEDOutcome.errNotFound ∧
    getErrDeleted [cSeg0, cSeg1] 3 = GetEDOutcome.errDeleted := by
  constructor
  · exact ((getErrDeleted_sentinels [nfSeg, nfSeg] 3).1
      (by intro s hs; rcases List.mem_cons.mp hs with rfl | hs'; · rfl
          rcases List.mem_cons.mp hs' with rfl | hs''; · rfl
          exact absurd hs'' (List.not_mem_nil s))).1
  · exact (getErrDeleted_sentinels [cSeg0, cSeg1] 3).2 [cSeg0] cSeg1 [] rfl rfl
      (by intro t ht; exact absurd ht (List.not_mem_nil t))

/-! ### `makeExistsOnLower` and appending segments -/

/-- Result of the injected `existsOnLowerSegmentsFn` closure: `ok b` models
`(b, nil)`.  The error branch of the Go closure is unreachable, because
`getWithUpperSegmentBoundary` never returns a non-nil error (it panics on
unsupported errors instead); the panic is modelled by `fatal`. -/
inductive ExistsLowerOutcome where
  | ok (b : Bool)
  | fatal
  deriving DecidableEq, Repr

/-- `SegmentGroup.makeExistsOnLower(nextSegmentIndex)`, applied to a key:
index 0 answers `false` without consulting any segment; otherwise the
closure runs `getWithUpperSegmentBoundary(key, nextSegmentIndex-1)` over
the group and reports whether the returned value is non-nil.  The group is
passed explicitly because the Go closure reads `sg.segments` at call
time. -/
def makeExistsOnLower {K V : Type} (sg : SegmentGroup K V) (nextSegmentIndex : Nat)
    (key : K) : ExistsLowerOutcome :=
  if nextSegmentIndex = 0 then
    .ok false
  else
    match getWithUpperSegmentBoundary sg key ((nextSegmentIndex : Int) - 1) with
    | .ok v => .ok v.isSome
    | .fatal => .fatal

/-- `C8`, amended: `makeExistsOnLower i` answers `true` exactly when the
replace-strategy lookup over the strictly older segments (indices below
`i`) yields a value — i.e. when, among those segments, the newest one whose
response is meaningful responds with a value rather than a tombstone.  For
`i = 0` it answers `false` for every group, in particular without
consulting any segment. -/
theorem existsOnLower_amended {K V : Type} (sg : SegmentGroup K V) (i : Nat) (key : K) :
    makeExistsOnLower sg 0 key = ExistsLowerOutcome.ok false ∧
    (makeExistsOnLower sg i key = ExistsLowerOutcome.ok true ↔
      ∃ v, ((sg.take i).reverse.map (fun s => s.getFn key)).find? isMeaningful =
        some (SegGetResult.found v)) := by
  refine ⟨rfl, ?_⟩
  rcases Nat.eq_zero_or_pos i with hi | hi
  · subst hi
    simp [makeExistsOnLower]
  · have hne : i ≠ 0 := Nat.pos_iff_ne_zero.mp hi
    unfold makeExistsOnLower getWithUpperSegmentBoundary respUpTo
    rw [if_neg hne]
    rw [show ((i : Int) - 1 + 1).toNat = i by omega]
    rw [walkNewestFirst_eq_newestDecision]
    unfold newestDecision
    generalize (sg.take i).reverse.map (fun s => s.getFn key) = rs
    rcases hfind : rs.find? isMeaningful with _ | r
    · simp [hfind]
    · cases r <;> simp [hfind]

/-- Counterexample input for `C8`: the older segment holds the key, the
newer (still strictly below index 2) segment holds a tombstone. -/
theorem existsOnLower_counterexample :
    ¬(makeExistsOnLower [cSeg0, cSeg1] 2 3 = ExistsLowerOutcome.ok true ↔
        ∃ j, ∃ h : j < 2, ∃ v,
          (([cSeg0, cSeg1] : SegmentGroup Nat Nat).get ⟨j, by simpa using h⟩).getFn 3 =
            SegGetResult.found v) := by
  intro h
  have htrue : makeExistsOnLower [cSeg0, cSeg1] 2 3 = ExistsLowerOutcome.ok true :=
    h.mpr ⟨0, by omega, 7, rfl⟩
  have hfalse : makeExistsOnLower [cSeg0, cSeg1] 2 3 = ExistsLowerOutcome.ok false := rfl
  rw [hfalse] at htrue
  exact absurd htrue (by decide)

/-- `newSegment` abstracted for `SegmentGroup.add`: opening the path either
fails (`none`) or yields the on-disk read behaviour of the new segment. -/
def openedSegment (K V : Type) := Option (K → SegGetResult V)

/-- `SegmentGroup.add(path)`: compute `newSegmentIndex = len(sg.segments)`,
open a new segment at the path with `makeExistsOnLower(newSegmentIndex)`
(recorded as the captured index), fail if the open fails, else append the
new segment as the newest element. -/
def add {K V : Type} (sg : SegmentGroup K V) (opened : openedSegment K V) :
    Except Unit (SegmentGroup K V) :=
  let newSegmentIndex := sg.length
  match opened with
  | none => .error ()
  | some getFn => .ok (sg ++ [⟨getFn, newSegmentIndex⟩])

/-- `SegmentGroup.addInitializedSegment(segment)`: append the given,
already-initialized segment as the newest element. -/
def addInitializedSegment {K V : Type} (sg : SegmentGroup K V) (s : GSegment K V) :
    SegmentGroup K V :=
  sg ++ [s]

/-- `C7`, amended: after a successful `append(path)` the newly opened
segment is the tail of the sequence, its `exists_on_lower` closure captures
the previous length (so its walk is bounded by the previous top index), and
every previously existing position is unchanged.  `append_initialized`
likewise pushes its argument as the tail and leaves all previous positions
unchanged, but the argument keeps whatever `exists_on_lower` binding it was
constructed with. -/
theorem append_monotone_amended {K V : Type} (sg : SegmentGroup K V)
    (f : K → SegGetResult V) (s : GSegment K V) :
    (∀ res, add sg (some f) = Except.ok res →
        res.length = sg.length + 1 ∧
        res.getLast? = some ⟨f, sg.length⟩ ∧
        ∀ i, i < sg.length → res.get? i = sg.get? i) ∧
    ((addInitializedSegment sg s).length = sg.length + 1 ∧
      (addInitializedSegment sg s).getLast? = some s ∧
      ∀ i, i < sg.length → (addInitializedSegment sg s).get? i = sg.get? i) := by
  constructor
  · intro res hres
    have : res = sg ++ [⟨f, sg.length⟩] := by
      simpa [add] using hres.symm
    subst this
    refine ⟨by simp, by simp, ?_⟩
    intro i hi
    exact List.get?_append hi
  · refine ⟨by simp [addInitializedSegment], by simp [addInitializedSegment], ?_⟩
    intro i hi
    exact List.get?_append hi

/-- Witness for `C7` (amended) at a concrete input. -/
theorem append_monotone_amended_witness :
    ∃ res, add [cSeg0] (some (fun _ => SegGetResult.notFound)) = Except.ok res ∧
      res.getLast? = some ⟨fun _ => SegGetResult.notFound, 1⟩ ∧
      res.get? 0 = some cSeg0 :=
  ⟨[cSeg0, ⟨fun _ => SegGetResult.notFound, 1⟩], rfl,
    ((append_monotone_amended [cSeg0] (fun _ => SegGetResult.notFound) cSeg0).1 _ rfl).2.1,
    (((append_monotone_amended [cSeg0] (fun _ => SegGetResult.notFound) cSeg0).1 _
      rfl).2.2 0 (by decide)).trans rfl⟩

/-- A segment whose `exists_on_lower` closure was constructed with captured
index `5` (counterexample input for `C7`). -/
def badSeg : GSegment Nat Nat := ⟨fun _ => SegGetResult.notFound, 5⟩

/-- Counterexample input for `C7` as stated: `append_initialized` pushes its
argument unchanged, so the tail's `exists_on_lower` binding is whatever the
argument carried — here `5`, not the previous length `1` (whose walk bound
would be the previous top index `0`). -/
theorem append_init_binding_counterexample :
    (addInitializedSegment [cSeg0] badSeg).getLast? = some badSeg ∧
    badSeg.existsOnLowerIdx ≠ ([cSeg0] : SegmentGroup Nat Nat).length := by
  exact ⟨rfl, by decide⟩

/-! ### `getCollection` -/

/-- Outcome of `segment.getCollection(key)` for one segment: a list of
values, the `lsmkv.NotFound` sentinel, or some other error. -/
inductive CollResult (V : Type) where
  | vals (vs : List V)
  | notFound
  | err
  deriving DecidableEq, Repr

/-- The loop of `SegmentGroup.getCollection` over the per-segment responses
in sequence order (oldest first), carrying the accumulator `out`:
`NotFound` is skipped, any other error aborts the whole call with no
partial result, and found value lists are appended (`out = v` when `out` is
still empty, `out = append(out, v...)` otherwise). -/
def getCollectionLoop {V : Type} : List (CollResult V) → List V → Except Unit (List V)
  | [], out => .ok out
  | r :: rest, out =>
    match r with
    | .vals vs => getCollectionLoop rest (if out.isEmpty then vs else out ++ vs)
    | .notFound => getCollectionLoop rest out
    | .err => .error ()

/-- `SegmentGroup.getCollection(key)` over a group whose segments are
abstracted by their `getCollection` responses for the key. -/
def getCollection {K V : Type} (segs : List (K → CollResult V)) (key : K) :
    Except Unit (List V) :=
  getCollectionLoop (segs.map (fun s => s key)) []

/-- Specification-side concatenation: the value lists of every response
that holds the key, in sequence order. -/
def heldValues {V : Type} : List (CollResult V) → List V
  | [] => []
  | .vals vs :: rest => vs ++ heldValues rest
  | _ :: rest => heldValues rest

theorem getCollectionLoop_ok {V : Type} (rs : List (CollResult V)) (out : List V)
    (h : ∀ r ∈ rs, r ≠ CollResult.err) :
    getCollectionLoop rs out = .ok (out ++ heldValues rs) := by
  induction rs generalizing out with
  | nil => simp [getCollectionLoop, heldValues]
  | cons r rest ih =>
    cases r with
    | vals vs =>
      rw [getCollectionLoop]
      cases out with
      | nil =>
        rw [ih _ (fun r hr => h r (by simp [hr]))]
        simp [heldValues]
      | cons o os =>
        rw [ih _ (fun r hr => h r (by simp [hr]))]
        simp [heldValues, List.isEmpty]
    | notFound =>
      rw [getCollectionLoop, ih _ (fun r hr => h r (by simp [hr]))]
      simp [heldValues]
    | err => exact absurd rfl (h CollResult.err (by simp))

theorem getCollectionLoop_err {V : Type} (rs : List (CollResult V)) (out : List V)
    (h : CollResult.err ∈ rs) :
    getCollectionLoop rs out = .error () := by
  induction rs generalizing out with
  | nil => simp at h
  | cons r rest ih =>
    cases r with
    | vals vs =>
      rw [getCollectionLoop]
      rcases List.mem_cons.mp h with h' | h'
      · exact absurd h' (by simp)
      · exact ih _ h'
    | notFound =>
      rw [getCollectionLoop]
      rcases List.mem_cons.mp h with h' | h'
      · exact absurd h' (by simp)
      · exact ih _ h'
    | err => rfl

/-- `C5`: `get_collection(key)` walks the sequence oldest to newest and
returns the concatenation, in sequence order, of the value lists of every
segment that holds the key; a segment responding `NotFound` is skipped
rather than failing the operation, and any other segment error fails the
whole call with no partial result. -/
theorem getCollection_concat {K V : Type} (segs : List (K → CollResult V)) (key : K) :
    ((∀ s ∈ segs, s key ≠ CollResult.err) →
        getCollection segs key = .ok (heldValues (segs.map (fun s => s key)))) ∧
    (getCollection segs key = .error () ↔ ∃ s ∈ segs, s key = CollResult.err) := by
  constructor
  · intro h
    unfold getCollection
    rw [getCollectionLoop_ok]
    · simp
    · intro r hr
      rcases List.mem_map.mp hr with ⟨s, hs, rfl⟩
      exact h s hs
  · constructor
    · intro h
      by_contra hnone
      push_neg at hnone
      have hok := getCollectionLoop_ok (segs.map (fun s => s key)) []
        (fun r hr => by rcases List.mem_map.mp hr with ⟨s, hs, rfl⟩; exact hnone s hs)
      unfold getCollection at h
      rw [hok] at h
      exact Except.noConfusion h
    · intro ⟨s, hs, hkey⟩
      unfold getCollection
      exact getCollectionLoop_err _ _ (List.mem_map.mpr ⟨s, hs, hkey⟩)

/-- Concrete collection segments for the `C5` witness. -/
def collSegs : List (Nat → CollResult Nat) :=
  [fun _ => CollResult.vals [1, 2], fun _ => CollResult.notFound, fun _ => CollResult.vals [3]]

/-- Witness for `C5` at a concrete input: three segments, the middle one
responding `NotFound`, concatenate in sequence order. -/
theorem getCollection_concat_witness :
    getCollection collSegs 0 = Except.ok [1, 2, 3] := by
  have h := (getCollection_concat collSegs 0).1 (by
    intro s hs
    rcases List.mem_cons.mp hs with rfl | hs'
    · decide
    rcases List.mem_cons.mp hs' with rfl | hs''
    · decide
    rcases List.mem_cons.mp hs'' with rfl | hs'''
    · decide
    exact absurd hs''' (List.not_mem_nil s))
  exact h.trans rfl

/-! ### `shutdown` -/

/-- A segment as seen by `shutdown`: an identifier and whether its `close`
call succeeds. -/
structure ClosableSeg where
  id : Nat
  closeOk : Bool
  deriving DecidableEq, Repr

/-- The segment-closing loop of `SegmentGroup.shutdown` (the callback
unregistration and cleaner close that precede it are not modelled): each
segment is closed in sequence order and its slot set to `nil` (`none`); the
first failing close returns its error immediately, leaving the remaining
slots untouched.  `Except.ok ()` models the successful return, after which
`sg.segments` itself is set to `nil`; `Except.error slots` models the error
return with `sg.segments` left equal to `slots`. -/
def shutdownSegs : List ClosableSeg → Except (List (Option ClosableSeg)) Unit
  | [] => .ok ()
  | s :: rest =>
    if s.closeOk then
      match shutdownSegs rest with
      | .ok () => .ok ()
      | .error tail => .error (none :: tail)
    else
      .error (some s :: rest.map some)

/-- `C6`: `shutdown` closes segments in sequence order; if every close
succeeds the whole sequence is set to nil (so a late flush fails loudly),
and if the close of the segment at position `i` is the first to fail,
shutdown returns that error immediately with every earlier slot nilled and
every later segment still owned and open. -/
theorem shutdown_partial_close (segs : List ClosableSeg) :
    ((∀ s ∈ segs, s.closeOk = true) → shutdownSegs segs = Except.ok ()) ∧
    (∀ i, ∀ hi : i < segs.length, (segs.get ⟨i, hi⟩).closeOk = false →
      (∀ j, ∀ hj : j < i, (segs.get ⟨j, Nat.lt_trans hj hi⟩).closeOk = true) →
      shutdownSegs segs =
        Except.error (List.replicate i none ++ (segs.drop i).map some)) := by
  constructor
  · intro h
    induction segs with
    | nil => rfl
    | cons s rest ih =>
      rw [shutdownSegs, if_pos (h s (by simp))]
      rw [ih (fun t ht => h t (by simp [ht]))]
  · induction segs with
    | nil => intro i hi; simp at hi
    | cons s rest ih =>
      intro i hi hfail hbefore
      cases i with
      | zero =>
        rw [shutdownSegs]
        rw [if_neg (by simp at hfail; simp [hfail])]
        simp
      | succ i' =>
        have hs : s.closeOk = true := hbefore 0 (Nat.succ_pos i')
        rw [shutdownSegs, if_pos hs]
        have hrest := ih i' (Nat.lt_of_succ_lt_succ hi) hfail
          (fun j hj => hbefore (j + 1) (Nat.succ_lt_succ hj))
        rw [hrest]
        simp [List.replicate_succ]

/-- Concrete segments for the `C6` witness: the close of the middle segment
fails. -/
def shutSegs : List ClosableSeg := [⟨0, true⟩, ⟨1, false⟩, ⟨2, true⟩]

/-- Witness for `C6` at a concrete input: the failed close at position 1
leaves slot 0 nilled and slots 1 and 2 still owned. -/
theorem shutdown_partial_close_witness :
    shutdownSegs shutSegs = Except.error [none, some ⟨1, false⟩, some ⟨2, true⟩] := by
  have h := (shutdown_partial_close shutSegs).2 1 (by decide) (by decide)
    (fun j hj => by
      have : j = 0 := by omega
      subst this
      rfl)
  simpa [shutSegs] using h

/-! ### The maintenance tick: `compactOrCleanup` -/

/-- The two maintenance actions a tick can run. -/
inductive MAction where
  | compact
  | cleanup
  deriving DecidableEq, Repr

/-- The timestamps `compactOrCleanup` consults, as integer clock readings
(Go `time.Time` values; `time.Since(t) = now - t` and `t.Before(u) = t < u`). -/
structure TickState where
  lastCleanupCall : Int
  lastCompactionCall : Int
  deriving DecidableEq, Repr

/-- `forceCleanupInterval := time.Hour * 12`, in nanoseconds. -/
def forceCleanupInterval : Int := 12 * 60 * 60 * 1000000000

/-- `SegmentGroup.compactOrCleanup` (the initial `monitorSegments` call and
the logging are not modelled): `compactWork` and `cleanupWork` are the
booleans returned by `compactOnce` / `cleanupOnce`.  The nested `compact`
and `cleanup` closures first stamp their respective timestamp with the
current time; `cleanup() || compact()` (or `compact() || cleanup()`)
short-circuits, so the second action runs only when the first returns
`false`.  The result is the returned boolean, the updated timestamps, and
the list of actions actually run, in order. -/
def compactOrCleanup (now : Int) (st : TickState) (compactWork cleanupWork : Bool) :
    Bool × TickState × List MAction :=
  if now - st.lastCleanupCall > forceCleanupInterval ∧
      st.lastCleanupCall < st.lastCompactionCall then
    let st1 : TickState := { st with lastCleanupCall := now }
    if cleanupWork then (true, st1, [.cleanup])
    else
      let st2 : TickState := { st1 with lastCompactionCall := now }
      (cleanupWork || compactWork, st2, [.cleanup, .compact])
  else
    let st1 : TickState := { st with lastCompactionCall := now }
    if compactWork then (true, st1, [.compact])
    else
      let st2 : TickState := { st1 with lastCleanupCall := now }
      (compactWork || cleanupWork, st2, [.compact, .cleanup])

/-- `C4`, amended: on a maintenance tick, cleanup runs first exactly when
the last cleanup call was more than 12 hours ago AND the last compaction
call was more recent than the last cleanup call; in every other case —
including "cleanup within 12 hours but compaction not more recent" and
"cleanup over 12 hours ago but compaction not more recent" — compaction
runs first.  Whichever action is chosen first, if its work flag is `true`
the second action is skipped, otherwise the second runs; the tick returns
the boolean disjunction of the two work flags. -/
theorem compactOrCleanup_amended (now : Int) (st : TickState)
    (compactWork cleanupWork : Bool) :
    ((compactOrCleanup now st compactWork cleanupWork).2.2 =
      if now - st.lastCleanupCall > forceCleanupInterval ∧
          st.lastCleanupCall < st.lastCompactionCall then
        (if cleanupWork then [MAction.cleanup] else [MAction.cleanup, MAction.compact])
      else
        (if compactWork then [MAction.compact] else [MAction.compact, MAction.cleanup])) ∧
    (compactOrCleanup now st compactWork cleanupWork).1 = (compactWork || cleanupWork) := by
  unfold compactOrCleanup
  by_cases h : now - st.lastCleanupCall > forceCleanupInterval ∧
      st.lastCleanupCall < st.lastCompactionCall
  · rw [if_pos h, if_pos h]
    cases cleanupWork <;> cases compactWork <;> simp
  · rw [if_neg h, if_neg h]
    cases cleanupWork <;> cases compactWork <;> simp

/-- Concrete tick state for the `C4` counterexample: the last cleanup call
was just now (well within 12 hours) and the last compaction call is older
than the last cleanup call. -/
def tickSt : TickState := ⟨0, -1⟩

/-- Counterexample input for `C4` as stated: at `now = 0` with `tickSt`,
the claim's condition for running compaction first — cleanup within 12
hours AND compaction more recent than cleanup — is false (compaction is
older), yet the code runs compaction first. -/
theorem compactOrCleanup_counterexample :
    ¬((compactOrCleanup 0 tickSt false false).2.2.head? = some MAction.compact ↔
        (0 - tickSt.lastCleanupCall ≤ forceCleanupInterval ∧
          tickSt.lastCleanupCall < tickSt.lastCompactionCall)) := by
  decide

/-! ### Recovery: the two-pass directory scan of `newSegmentGroup`

Filenames are strings; the directory is the list of names present.  The
string helpers mirror `strings.TrimSuffix`, `strings.TrimPrefix`,
`filepath.Ext` (for names without path separators) and
`strings.Split(·, "_")`.  I/O is modelled as deterministic state updates on
the name list plus an operation trace; `fileExists` is membership in the
list (`os.Stat` errors other than not-exists are not modelled, nor are
failures of `os.Remove`/`os.Rename`/segment open on files the scan has just
observed or created). -/

/-- `strings.TrimSuffix`. -/
def trimSuffix (s suffix : String) : String :=
  if suffix.data.isSuffixOf s.data then
    String.mk (s.data.take (s.data.length - suffix.data.length))
  else s

/-- `strings.TrimPrefix`. -/
def trimLeading (s pre : String) : String :=
  if pre.data.isPrefixOf s.data then String.mk (s.data.drop pre.data.length) else s

/-- `filepath.Ext` for plain file names (no directory separators): the
suffix beginning at the final dot, empty when there is no dot. -/
def fileExt (name : String) : String :=
  let rev := name.data.reverse
  let relTail := rev.takeWhile (fun c => c ≠ '.')
  if relTail.length = rev.length then ""
  else String.mk ('.' :: relTail.reverse)

/-- `strings.Split(s, "_")`. -/
def splitChar (c : Char) : List Char → List (List Char)
  | [] => [[]]
  | x :: xs =>
    let r := splitChar c xs
    if x = c then [] :: r
    else
      match r with
      | [] => [[x]]
      | g :: gs => (x :: g) :: gs

/-- `strings.Split(s, "_")` on strings. -/
def splitUnder (s : String) : List String :=
  (splitChar '_' s.data).map String.mk

/-- Modelled from the spec: `segmentID` is declared outside the excerpt; per
the naming scheme `segment-<id>.db` it strips the `segment-` lead and the
extension, so that `segment-<A>_<B>.db` yields the stem `<A>_<B>`. -/
def segmentID (filename : String) : String :=
  trimSuffix (trimLeading filename "segment-") (fileExt filename)

/-- Modelled from the spec: `DeleteMarkerSuffix` is declared outside the
excerpt; the spec only requires a dedicated extension (`<name>.<delete-marker-suffix>`)
distinct from `.db`, `.tmp` and `.wal`, and only that distinctness is used
below. -/
def DeleteMarkerSuffix : String := ".deleteme"

/-- Filesystem and segment operations recorded by the recovery model, in
execution order. -/
inductive FSOp where
  | remove (name : String)
  | rename (src dst : String)
  | openSeg (name : String)
  | closeSeg (name : String)
  | dropSeg (name : String)
  | fsyncDir
  deriving DecidableEq, Repr

/-- Recovery state: directory contents, the working segment sequence (paths
of opened segments, in position order), the
`segmentsAlreadyRecoveredFromCompaction` set, and the operation trace. -/
structure RecState where
  fs : List String
  segs : List String
  recovered : List String
  trace : List FSOp
  deriving DecidableEq, Repr

/-- `os.Remove`. -/
def removeFile (st : RecState) (name : String) : RecState :=
  { st with fs := st.fs.erase name, trace := st.trace ++ [.remove name] }

/-- `os.Rename src dst` (replacing `dst` if it exists). -/
def renameFile (st : RecState) (src dst : String) : RecState :=
  { st with fs := (st.fs.erase src).erase dst ++ [dst],
            trace := st.trace ++ [.rename src dst] }

/-- `newSegment` + recording the opened segment in the working sequence. -/
def openSegmentFile (st : RecState) (name : String) : RecState :=
  { st with segs := st.segs ++ [name], trace := st.trace ++ [.openSeg name] }

/-- The left-absent/right-present recovery step: open the stale right
segment just to drop it (`newSegment`, `close`, `dropImmediately`), then
fsync the directory. -/
def dropRightLeftover (st : RecState) (name : String) : RecState :=
  { st with fs := st.fs.erase name,
            trace := st.trace ++ [.openSeg name, .closeSeg name, .dropSeg name, .fsyncDir] }

/-- Pass 1 of `newSegmentGroup`, body of the first `for _, entry := range list`
loop: compaction recovery for `.db.tmp` entries. -/
def pass1Step (st : RecState) (entry : String) : Except String RecState :=
  if fileExt entry ≠ ".tmp" then .ok st else
  let potentialCompactedSegmentFileName := trimSuffix entry ".tmp"
  if fileExt potentialCompactedSegmentFileName ≠ ".db" then .ok st else
  let jointSegmentsIDs := splitUnder (segmentID potentialCompactedSegmentFileName)
  if jointSegmentsIDs.length = 1 then .ok (removeFile st entry) else
  if jointSegmentsIDs.length ≠ 2 then .ok st else
  let leftSegmentFilename := "segment-" ++ jointSegmentsIDs.getD 0 "" ++ ".db"
  let rightSegmentFilename := "segment-" ++ jointSegmentsIDs.getD 1 "" ++ ".db"
  if leftSegmentFilename ∈ st.fs ∧ rightSegmentFilename ∈ st.fs then
    .ok (removeFile st entry) else
  if leftSegmentFilename ∈ st.fs ∧ rightSegmentFilename ∉ st.fs then
    .error ("missing right segment " ++ rightSegmentFilename) else
  let st1 := if leftSegmentFilename ∉ st.fs ∧ rightSegmentFilename ∈ st.fs then
      dropRightLeftover st rightSegmentFilename
    else st
  let st2 := openSegmentFile (renameFile st1 entry rightSegmentFilename) rightSegmentFilename
  .ok { st2 with recovered := st2.recovered ++ [rightSegmentFilename] }

/-- Pass 2 of `newSegmentGroup`, body of the second loop: delete-marker
cleanup, WAL probing, and mounting of regular `.db` segments. -/
def pass2Step (st : RecState) (entry : String) : Except String RecState :=
  if fileExt entry = DeleteMarkerSuffix then .ok (removeFile st entry) else
  if fileExt entry ≠ ".db" then .ok st else
  if entry ∈ st.recovered then .ok st else
  let walFileName := trimSuffix entry ".db" ++ ".wal"
  if walFileName ∈ st.fs then .ok (removeFile st entry)
  else .ok (openSegmentFile st entry)

/-- Run one pass over the (fixed) directory listing, threading the state
and stopping at the first error, as the Go loops do via early `return`. -/
def runPass (step : RecState → String → Except String RecState) :
    List String → RecState → Except String RecState
  | [], st => .ok st
  | e :: es, st =>
    match step st e with
    | .error msg => .error msg
    | .ok st' => runPass step es st'

/-- The directory-scan portion of `newSegmentGroup`: pass 1 over the
listing, then pass 2 over the same listing. -/
def newSegmentGroup (entries : List String) : Except String RecState :=
  match runPass pass1Step entries ⟨entries, [], [], []⟩ with
  | .error msg => .error msg
  | .ok st => runPass pass2Step entries st

theorem fileExt_segment_db (b : String) : fileExt ("segment-" ++ b ++ ".db") = ".db" := by
  unfold fileExt
  have hdata : ("segment-" ++ b ++ ".db").data = ("segment-".data ++ b.data) ++ ".db".data := rfl
  rw [hdata, List.reverse_append]
  have h1 : (".db".data).reverse = ['b', 'd', '.'] := rfl
  rw [h1]
  simp [List.takeWhile_cons]

/-- `C2`: during recovery pass 1, a directory entry `segment-<A>_<B>.db.tmp`
with exactly two parsed IDs is handled by the existence of the canonical
files `segment-<A>.db` (left) and `segment-<B>.db` (right): both present →
the `.tmp` is deleted and recovery continues; left present, right absent →
recovery fails; left absent, right present → the right file is opened only
to be dropped immediately, the directory is fsynced, then the `.tmp` is
renamed over the right path and opened; both absent → the `.tmp` is
renamed to the right path, opened as a new segment, and recorded as already
recovered — which makes pass 2 skip that filename (last conjunct). -/
theorem pass1_tmp_outcomes (st : RecState) (entry A B : String)
    (h1 : fileExt entry = ".tmp")
    (h2 : fileExt (trimSuffix entry ".tmp") = ".db")
    (h3 : splitUnder (segmentID (trimSuffix entry ".tmp")) = [A, B]) :
    (("segment-" ++ A ++ ".db") ∈ st.fs → ("segment-" ++ B ++ ".db") ∈ st.fs →
      pass1Step st entry = .ok (removeFile st entry)) ∧
    (("segment-" ++ A ++ ".db") ∈ st.fs → ("segment-" ++ B ++ ".db") ∉ st.fs →
      pass1Step st entry =
        .error ("missing right segment " ++ ("segment-" ++ B ++ ".db"))) ∧
    (("segment-" ++ A ++ ".db") ∉ st.fs → ("segment-" ++ B ++ ".db") ∈ st.fs →
      pass1Step st entry = .ok
        { fs := ((st.fs.erase ("segment-" ++ B ++ ".db")).erase entry).erase
              ("segment-" ++ B ++ ".db") ++ ["segment-" ++ B ++ ".db"],
          segs := st.segs ++ ["segment-" ++ B ++ ".db"],
          recovered := st.recovered ++ ["segment-" ++ B ++ ".db"],
          trace := st.trace ++
            [FSOp.openSeg ("segment-" ++ B ++ ".db"),
             FSOp.closeSeg ("segment-" ++ B ++ ".db"),
             FSOp.dropSeg ("segment-" ++ B ++ ".db"), FSOp.fsyncDir,
             FSOp.rename entry ("segment-" ++ B ++ ".db"),
             FSOp.openSeg ("segment-" ++ B ++ ".db")] }) ∧
    (("segment-" ++ A ++ ".db") ∉ st.fs → ("segment-" ++ B ++ ".db") ∉ st.fs →
      pass1Step st entry = .ok
        { fs := (st.fs.erase entry).erase ("segment-" ++ B ++ ".db") ++
              ["segment-" ++ B ++ ".db"],
          segs := st.segs ++ ["segment-" ++ B ++ ".db"],
          recovered := st.recovered ++ ["segment-" ++ B ++ ".db"],
          trace := st.trace ++
            [FSOp.rename entry ("segment-" ++ B ++ ".db"),
             FSOp.openSeg ("segment-" ++ B ++ ".db")] }) ∧
    (∀ st2 : RecState, ("segment-" ++ B ++ ".db") ∈ st2.recovered →
      pass2Step st2 ("segment-" ++ B ++ ".db") = .ok st2) := by
  have hred : pass1Step st entry =
      (if ("segment-" ++ A ++ ".db") ∈ st.fs ∧ ("segment-" ++ B ++ ".db") ∈ st.fs then
        .ok (removeFile st entry) else
      if ("segment-" ++ A ++ ".db") ∈ st.fs ∧ ("segment-" ++ B ++ ".db") ∉ st.fs then
        .error ("missing right segment " ++ ("segment-" ++ B ++ ".db")) else
      let st1 := if ("segment-" ++ A ++ ".db") ∉ st.fs ∧ ("segment-" ++ B ++ ".db") ∈ st.fs
        then dropRightLeftover st ("segment-" ++ B ++ ".db") else st
      let st2 := openSegmentFile (renameFile st1 entry ("segment-" ++ B ++ ".db"))
        ("segment-" ++ B ++ ".db")
      .ok { st2 with recovered := st2.recovered ++ ["segment-" ++ B ++ ".db"] }) := by
    unfold pass1Step
    simp only [h1, h2, h3, ne_eq, not_true_eq_false, if_false, ite_false, ite_true,
      List.length_cons, List.length_nil, List.getD_cons_zero, List.getD_cons_succ]
    norm_num
  refine ⟨?_, ?_, ?_, ?_, ?_⟩
  · intro hL hR
    rw [hred, if_pos ⟨hL, hR⟩]
  · intro hL hR
    rw [hred, if_neg (fun h => hR h.2), if_pos ⟨hL, hR⟩]
  · intro hL hR
    rw [hred, if_neg (fun h => hL h.1), if_neg (fun h => hL h.1)]
    simp only [if_pos (And.intro hL hR)]
    simp [openSegmentFile, renameFile, dropRightLeftover]
  · intro hL hR
    rw [hred, if_neg (fun h => hL h.1), if_neg (fun h => hL h.1)]
    simp only [if_neg (fun h : _ ∧ _ => hR h.2)]
    simp [openSegmentFile, renameFile]
  · intro st2 hrec
    unfold pass2Step
    rw [if_neg (by rw [fileExt_segment_db]; decide)]
    rw [if_neg (by rw [fileExt_segment_db]; simp)]
    rw [if_pos hrec]

/-- Concrete recovery state for the `C2` witness: the `.tmp` entry and both
canonical segment files are present. -/
def recW : RecState :=
  ⟨["segment-01_02.db.tmp", "segment-01.db", "segment-02.db"], [], [], []⟩

/-- Witness for `C2` at a concrete input (the both-present case, scenario
S3 of the spec): the stale `.tmp` is deleted. -/
theorem pass1_tmp_outcomes_witness :
    pass1Step recW "segment-01_02.db.tmp" =
      Except.ok ⟨["segment-01.db", "segment-02.db"], [], [],
        [FSOp.remove "segment-01_02.db.tmp"]⟩ := by
  have h := (pass1_tmp_outcomes recW "segment-01_02.db.tmp" "01" "02"
    (by decide) (by decide) (by decide)).1 (by decide) (by decide)
  exact h.trans (by rfl)

/-- `C3`: during recovery pass 2, a `.db` entry not claimed by pass 1 is
deleted (and not added to the sequence) when a sibling `<stem>.wal` exists,
and is opened and appended when no such WAL exists; in particular a
directory containing only `segment-02.db` and `segment-02.wal` yields an
empty sequence with `segment-02.db` deleted. -/
theorem pass2_wal_rule (st : RecState) (entry : String)
    (h1 : fileExt entry = ".db") (h2 : entry ∉ st.recovered) :
    ((trimSuffix entry ".db" ++ ".wal") ∈ st.fs →
        pass2Step st entry = .ok (removeFile st entry)) ∧
    ((trimSuffix entry ".db" ++ ".wal") ∉ st.fs →
        pass2Step st entry = .ok (openSegmentFile st entry)) ∧
    newSegmentGroup ["segment-02.db", "segment-02.wal"] =
      .ok ⟨["segment-02.wal"], [], [], [FSOp.remove "segment-02.db"]⟩ := by
  refine ⟨?_, ?_, ?_⟩
  · intro hwal
    unfold pass2Step
    rw [if_neg (by rw [h1]; decide), if_neg (by rw [h1]; simp), if_neg h2, if_pos hwal]
  · intro hwal
    unfold pass2Step
    rw [if_neg (by rw [h1]; decide), if_neg (by rw [h1]; simp), if_neg h2, if_neg hwal]
  · rfl

/-- Concrete recovery state for the `C3` witness. -/
def rec3W : RecState := ⟨["segment-07.db", "segment-07.wal"], [], [], []⟩

/-- Witness for `C3` at a concrete input: the `.db` with a live sibling WAL
is deleted and not mounted. -/
theorem pass2_wal_rule_witness :
    pass2Step rec3W "segment-07.db" =
      Except.ok ⟨["segment-07.wal"], [], [], [FSOp.remove "segment-07.db"]⟩ := by
  have h := (pass2_wal_rule rec3W "segment-07.db" (by decide) (by decide)).1 (by decide)
  exact h.trans (by rfl)

end LsmKv
